import Mathlib

/-!
Verification development for the pgdatahub batch ETL utility (`main.py`).

Strings are modelled as `List Char`. Each definition is a shallow embedding of
the corresponding Python function in `main.py`; names follow the source where
Lean allows it. External library behaviour that the source relies on
(`str.lower`, `str.translate`, `os.path.splitext`, `pandas.Series.replace`,
dict insertion/`pop` semantics) is embedded explicitly.
-/

namespace PgDataHub

/-- Strings are modelled as lists of Unicode scalar values. -/
abbrev Str := List Char

/-- ASCII lowercase letter test, `[a-z]`. -/
def isLowerAZ (c : Char) : Bool := decide (97 ≤ c.toNat ∧ c.toNat ≤ 122)

/-- ASCII uppercase letter test, `[A-Z]`. -/
def isUpperAZ (c : Char) : Bool := decide (65 ≤ c.toNat ∧ c.toNat ≤ 90)

/-- ASCII decimal digit test, `[0-9]`; this is what `str.isdigit` computes on
the identifier alphabet the cleaned strings live in. -/
def isDigitC (c : Char) : Bool := decide (48 ≤ c.toNat ∧ c.toNat ≤ 57)

/-- Character class `[a-zA-Z0-9_]` of the regex in `clean_text`
(`re.sub(r"[^a-zA-Z0-9_]", "_", text)`). -/
def isWordChar (c : Char) : Bool :=
  isLowerAZ c || isUpperAZ c || isDigitC c || decide (c.toNat = 95)

/-- Character class `[a-z0-9_]` used by the spec's step (d). -/
def isSafeChar (c : Char) : Bool :=
  isLowerAZ c || isDigitC c || decide (c.toNat = 95)

/-- Model of Python `str.lower` per scalar: ASCII `A-Z` map to `a-z`, and the
Kelvin sign U+212A maps to `k` (the one non-ASCII code point whose Python
lowercase is a single ASCII letter). Code points whose Python lowercase is
non-ASCII are left unchanged; they are indistinguishable after the
`[^a-zA-Z0-9_]` substitution that follows every use of `lower` in the source. -/
def pyLower (c : Char) : Char :=
  if 65 ≤ c.toNat ∧ c.toNat ≤ 90 then Char.ofNat (c.toNat + 32)
  else if c.toNat = 8490 then 'k'
  else c

/-- Embeds `TR_MAPPING = str.maketrans("ıİğĞüÜşŞöÖçÇ", "iIgGuUsSoOcC")` and the
`str.translate` call: the twelve Turkish letters map to ASCII, every other
character is unchanged. -/
def TR_MAPPING (c : Char) : Char :=
  if c = 'ı' then 'i'
  else if c = 'İ' then 'I'
  else if c = 'ğ' then 'g'
  else if c = 'Ğ' then 'G'
  else if c = 'ü' then 'u'
  else if c = 'Ü' then 'U'
  else if c = 'ş' then 's'
  else if c = 'Ş' then 'S'
  else if c = 'ö' then 'o'
  else if c = 'Ö' then 'O'
  else if c = 'ç' then 'c'
  else if c = 'Ç' then 'C'
  else c

/-- Step (a) of `clean_text`: `if "." in text and not text.startswith("."):
base_name = text.split(".")[0]` — everything before the first dot, otherwise
the text unchanged. -/
def stripFileExtension (t : Str) : Str :=
  if t.contains '.' && !(t.head? == some '.') then t.takeWhile (fun c => c ≠ '.') else t

/-- Step (b) of `clean_text`: `base_name.replace(".", "_")`. -/
def replaceDots (t : Str) : Str := t.map (fun c => if c = '.' then '_' else c)

/-- Step (c) of `clean_text`: `text.translate(TR_MAPPING).lower()`. -/
def transliterateLower (t : Str) : Str := (t.map TR_MAPPING).map pyLower

/-- Step (d) of `clean_text`: `re.sub(r"[^a-zA-Z0-9_]", "_", text)`. -/
def replaceSpecial (t : Str) : Str :=
  t.map (fun c => if isWordChar c then c else '_')

/-- Step (d) as the spec words it: replace every character outside `[a-z0-9_]`
with `_`. Kept separate so the code's `[a-zA-Z0-9_]` class can be compared
against the spec's `[a-z0-9_]` class. -/
def replaceSpecialSpec (t : Str) : Str :=
  t.map (fun c => if isSafeChar c then c else '_')

/-- Worker for step (e): the Boolean records whether the previously emitted
character was an underscore, so that a run of `_` is emitted once. -/
def collapseAux : Bool → Str → Str
  | _, [] => []
  | prev, c :: rest =>
    if c = '_' then
      if prev then collapseAux true rest else '_' :: collapseAux true rest
    else c :: collapseAux false rest

/-- Step (e) of `clean_text`: `re.sub(r"_+", "_", text)` — collapse runs of
underscores to a single one. -/
def collapseUnderscores (t : Str) : Str := collapseAux false t

/-- Step (f) of `clean_text`: `text.strip("_")` — remove leading and trailing
underscores. -/
def stripUnderscores (t : Str) : Str :=
  (((t.dropWhile (fun c => c == '_')).reverse.dropWhile (fun c => c == '_'))).reverse

/-- Step (g) of `clean_text`: `if text and text[0].isdigit(): text = "col_" + text`. -/
def prefixCol (t : Str) : Str :=
  match t with
  | [] => []
  | c :: _ => if isDigitC c then 'c' :: 'o' :: 'l' :: '_' :: t else t

/-- Embeds `clean_text` from `main.py` (lines 207-241): the seven steps in
source order. -/
def clean_text (t : Str) : Str :=
  prefixCol (stripUnderscores (collapseUnderscores (replaceSpecial
    (transliterateLower (replaceDots (stripFileExtension t))))))

/-- Reference Name Normalizer built from the spec's ordered steps (a)-(g); it
differs from `clean_text` only in using the spec's `[a-z0-9_]` class in step
(d). -/
def clean_text_spec (t : Str) : Str :=
  prefixCol (stripUnderscores (collapseUnderscores (replaceSpecialSpec
    (transliterateLower (replaceDots (stripFileExtension t))))))

/-- Spreadsheet extensions recognised by `find_data_files` and `create_df_dict`. -/
def excelExtensions : List Str :=
  [".xlsx".data, ".xls".data, ".xlsm".data, ".xlsb".data, ".odf".data,
   ".ods".data, ".odt".data]

/-- Embeds the reserved-name test of `find_data_files`:
`f.lower() in ["config.json", "config.template.json"]`. -/
def isReservedConfig (f : Str) : Bool :=
  f.map pyLower == "config.json".data || f.map pyLower == "config.template.json".data

/-- Embeds the inclusion test of `find_data_files`: `f.endswith(".csv") or
f.endswith(".json") or any(f.endswith(ext) for ext in excel_extensions)`.
Python `endswith` is case-sensitive. -/
def hasDataExtension (f : Str) : Bool :=
  ".csv".data.isSuffixOf f || ".json".data.isSuffixOf f ||
    excelExtensions.any (fun e => e.isSuffixOf f)

/-- Embeds `find_data_files` from `main.py` (lines 58-83) over a given
directory listing: skip reserved config names, keep entries passing the
extension test, preserving listing order. -/
def find_data_files : List Str → List Str
  | [] => []
  | f :: rest =>
    if isReservedConfig f then find_data_files rest
    else if hasDataExtension f then f :: find_data_files rest
    else find_data_files rest

/-- Modelled from the spec: the claim's inclusion rule for File Discovery —
an entry is included when it is not a reserved config name and its extension,
compared case-insensitively, is `.csv`, `.json`, or a spreadsheet extension. -/
def claimIncludesFile (f : Str) : Bool :=
  !isReservedConfig f &&
    (".csv".data.isSuffixOf (f.map pyLower) || ".json".data.isSuffixOf (f.map pyLower) ||
      excelExtensions.any (fun e => e.isSuffixOf (f.map pyLower)))

/-- Embeds `os.path.splitext` for plain file names: split off the extension at
the last dot, except that leading dots of the name never start an extension
(`splitext(".csv") = (".csv", "")`). -/
def splitExt (f : Str) : Str × Str :=
  let pre := f.takeWhile (fun c => c == '.')
  let rest := f.dropWhile (fun c => c == '.')
  if rest.contains '.' then
    let revRest := rest.reverse
    let extRev := revRest.takeWhile (fun c => c ≠ '.')
    (pre ++ ((revRest.dropWhile (fun c => c ≠ '.')).tail).reverse, '.' :: extRev.reverse)
  else (f, [])

/-- In-memory table: the ordered column list, each column a name paired with
the pandas dtype string of its values. Row data plays no role in any verified
property and is not modelled. -/
structure Table where
  cols : List (Str × Str)
deriving DecidableEq

/-- Python dict insertion `d[k] = v`: update in place when the key exists,
otherwise append at the end. -/
def dictInsert (d : List (Str × Table)) (k : Str) (v : Table) : List (Str × Table) :=
  if d.any (fun p => p.1 == k) then
    d.map (fun p => if p.1 == k then (k, v) else p)
  else d ++ [(k, v)]

/-- Outcomes of the external tabular readers for one run: what `pd.read_csv`,
`pd.read_excel(..., sheet_name=None)` and `json.load` + `pd.json_normalize`
return (or raise) for each file name. -/
structure FileEnv where
  readCsv : Str → Except Str Table
  readExcel : Str → Except Str (List (Str × Table))
  readJson : Str → Except Str Table

/-- One iteration of the `create_df_dict` loop body (lines 129-200 of
`main.py`) on the accumulated (dict, error_count) state: dispatch on the
lowercased `splitext` extension; every reader failure is caught, counted and
the file skipped; a multi-sheet spreadsheet contributes one entry per sheet
keyed `{base}_{clean_text(sheet)}.xlsx`; an unsupported extension counts as an
error. -/
def processFile (env : FileEnv) (st : List (Str × Table) × Nat) (f : Str) :
    List (Str × Table) × Nat :=
  let ext := (splitExt f).2.map pyLower
  if ext = ".csv".data then
    match env.readCsv f with
    | .ok t => (dictInsert st.1 f t, st.2)
    | .error _ => (st.1, st.2 + 1)
  else if excelExtensions.contains ext then
    match env.readExcel f with
    | .ok sheets =>
      match sheets with
      | [(_, t)] => (dictInsert st.1 f t, st.2)
      | _ =>
        (sheets.foldl
          (fun acc p =>
            dictInsert acc ((splitExt f).1 ++ '_' :: (clean_text p.1 ++ ".xlsx".data)) p.2)
          st.1, st.2)
    | .error _ => (st.1, st.2 + 1)
  else if ext = ".json".data then
    match env.readJson f with
    | .ok t => (dictInsert st.1 f t, st.2)
    | .error _ => (st.1, st.2 + 1)
  else (st.1, st.2 + 1)

/-- The full `create_df_dict` loop state after all files: the dict of loaded
tables together with the internal error counter. -/
def create_df_dict_state (files : List Str) (env : FileEnv) : List (Str × Table) × Nat :=
  files.foldl (processFile env) ([], 0)

/-- Embeds `create_df_dict` from `main.py` (lines 111-203). The function body
accumulates `df` and `error_count`, logs the count, and `return df` returns
the dict alone. -/
def create_df_dict (files : List Str) (env : FileEnv) : List (Str × Table) :=
  (create_df_dict_state files env).1

/-- Whether `create_df_dict` processes file `f` without an error: a recognised
extension whose reader succeeds. -/
def fileOk (env : FileEnv) (f : Str) : Bool :=
  let ext := (splitExt f).2.map pyLower
  if ext = ".csv".data then (env.readCsv f).isOk
  else if excelExtensions.contains ext then (env.readExcel f).isOk
  else if ext = ".json".data then (env.readJson f).isOk
  else false

/-- The dict update performed by a successful `create_df_dict` iteration on
file `f` (the error counter untouched). -/
def applyFileOk (env : FileEnv) (d : List (Str × Table)) (f : Str) : List (Str × Table) :=
  let ext := (splitExt f).2.map pyLower
  if ext = ".csv".data then
    match env.readCsv f with
    | .ok t => dictInsert d f t
    | .error _ => d
  else if excelExtensions.contains ext then
    match env.readExcel f with
    | .ok sheets =>
      match sheets with
      | [(_, t)] => dictInsert d f t
      | _ =>
        sheets.foldl
          (fun acc p =>
            dictInsert acc ((splitExt f).1 ++ '_' :: (clean_text p.1 ++ ".xlsx".data)) p.2)
          d
    | .error _ => d
  else if ext = ".json".data then
    match env.readJson f with
    | .ok t => dictInsert d f t
    | .error _ => d
  else d

/-- Embeds `DTYPE_MAPPING` from `main.py` (lines 19-54), the dict from pandas
dtype names to SQL type names, including its `"default": "VARCHAR"` entry. -/
def DTYPE_MAPPING : List (Str × Str) :=
  [("int8".data, "SMALLINT".data),
   ("int16".data, "SMALLINT".data),
   ("int32".data, "INTEGER".data),
   ("int64".data, "BIGINT".data),
   ("uint8".data, "SMALLINT".data),
   ("uint16".data, "INTEGER".data),
   ("uint32".data, "BIGINT".data),
   ("uint64".data, "BIGINT".data),
   ("float16".data, "REAL".data),
   ("float32".data, "REAL".data),
   ("float64".data, "DOUBLE PRECISION".data),
   ("decimal".data, "NUMERIC".data),
   ("datetime64[ns]".data, "TIMESTAMP".data),
   ("datetime64[us]".data, "TIMESTAMP".data),
   ("datetime64[ms]".data, "TIMESTAMP".data),
   ("datetime64[s]".data, "TIMESTAMP".data),
   ("datetime64[D]".data, "DATE".data),
   ("timedelta64[ns]".data, "INTERVAL".data),
   ("timedelta64[us]".data, "INTERVAL".data),
   ("timedelta64[ms]".data, "INTERVAL".data),
   ("timedelta64[s]".data, "INTERVAL".data),
   ("timedelta64[D]".data, "INTERVAL".data),
   ("bool".data, "BOOLEAN".data),
   ("object".data, "VARCHAR".data),
   ("string".data, "VARCHAR".data),
   ("category".data, "VARCHAR".data),
   ("bytes".data, "BYTEA".data),
   ("default".data, "VARCHAR".data)]

/-- Embeds `pandas.Series.replace` with a dict argument, as used on
`df.dtypes` in `process_dataframes`: a value equal to some key is replaced by
that key's image; a value matching no key is left unchanged (pandas `replace`
has no default case). -/
def seriesReplace (mapping : List (Str × Str)) (v : Str) : Str :=
  match mapping.lookup v with
  | some r => r
  | none => v

/-- Embeds `process_dataframes` from `main.py` (lines 266-286): clean each
column header, map each dtype through `DTYPE_MAPPING` via `Series.replace`,
and render the comma-joined `"{col} {type}"` schema string per table. -/
def process_dataframes (d : List (Str × Table)) : List (Str × Str) :=
  d.map (fun p =>
    let cleanedCols := p.2.cols.map (fun cp => clean_text cp.1)
    let colTypes := p.2.cols.map (fun cp => seriesReplace DTYPE_MAPPING cp.2)
    (p.1, List.intercalate ", ".data
      ((cleanedCols.zip colTypes).map (fun q => q.1 ++ ' ' :: q.2))))

/-- Embeds `save_df_to_csv` from `main.py` (lines 290-306) as the list of
(file name, contents) writes it performs. The loop target
`for clean_file_name, df in dataframe_dict.items()` shadows the
`clean_file_name` parameter, so the writes are
`{dict key}.csv` with the corresponding table as contents. -/
def save_df_to_csv (clean_file_name : List Str) (dataframe_dict : List (Str × Table)) :
    List (Str × Table) :=
  dataframe_dict.map (fun p => (p.1 ++ ".csv".data, p.2))

/-- Python `dict.pop(k)`: the stored value and the dict without that key, or
`none` (a `KeyError`) when the key is absent. -/
def dictPop (d : List (Str × Table)) (k : Str) : Option (Table × List (Str × Table)) :=
  match d.lookup k with
  | some v => some (v, d.eraseP (fun p => p.1 == k))
  | none => none

/-- Embeds `clean_file_names` from `main.py` (lines 245-262): for each file
name, clean it, pop the old dict entry and re-insert it under the cleaned key;
returns the cleaned name list and the updated dict. A `KeyError` from `pop`
becomes `Except.error`. -/
def clean_file_names (data_files : List Str) (d : List (Str × Table)) :
    Except Unit (List Str × List (Str × Table)) :=
  match data_files with
  | [] => .ok ([], d)
  | f :: rest =>
    let cn := clean_text f
    match dictPop d f with
    | none => .error ()
    | some (v, d1) =>
      match clean_file_names rest (dictInsert d1 cn v) with
      | .error e => .error e
      | .ok (names, d2) => .ok (cn :: names, d2)

/-- Database operations issued through the connection, as far as the
transactional claims observe them. -/
inductive DbOp where
  | create (name : Str)
  | copy (name : Str)
  | commit
  | rollback
deriving DecidableEq

/-- Outcome of the two fallible statements `import_to_postgres` runs for one
table: the `CREATE TABLE IF NOT EXISTS` execute, and the CSV open plus
`copy_expert` bulk copy. -/
structure TableStep where
  createRes : Except Str Unit
  copyRes : Except Str Unit

/-- The `for file_name, schema in table_schema.items()` loop of
`import_to_postgres`: the successfully issued operations up to and including
the first failure, and the first error if any. -/
def runLoop (env : Str → TableStep) : List (Str × Str) → List DbOp × Option Str
  | [] => ([], none)
  | (n, _) :: rest =>
    match (env n).createRes with
    | .error e => ([], some e)
    | .ok _ =>
      match (env n).copyRes with
      | .error e => ([DbOp.create n], some e)
      | .ok _ =>
        let r := runLoop env rest
        (DbOp.create n :: DbOp.copy n :: r.1, r.2)

/-- Embeds `import_to_postgres` from `main.py` (lines 322-355): run the
per-table loop inside the `try`; on success `conn.commit()` once and return
normally; on any failure `conn.rollback()` once and re-raise the original
error. -/
def import_to_postgres (table_schema : List (Str × Str)) (env : Str → TableStep) :
    List DbOp × Except Str Unit :=
  match runLoop env table_schema with
  | (ops, none) => (ops ++ [DbOp.commit], Except.ok ())
  | (ops, some e) => (ops ++ [DbOp.rollback], Except.error e)

/-- Whether every table-creation and bulk-copy step of the run succeeds. -/
def allStepsOk (env : Str → TableStep) (table_schema : List (Str × Str)) : Bool :=
  table_schema.all (fun p => (env p.1).createRes.isOk && (env p.1).copyRes.isOk)

/-- The first error raised inside the per-table loop, if any. -/
def firstFailure (env : Str → TableStep) : List (Str × Str) → Option Str
  | [] => none
  | (n, _) :: rest =>
    match (env n).createRes with
    | .error e => some e
    | .ok _ =>
      match (env n).copyRes with
      | .error e => some e
      | .ok _ => firstFailure env rest

/-- Pipeline stages of the orchestrator, in the order `main` runs them. -/
inductive Stage where
  | discover
  | stagedir
  | load
  | normalize
  | schema
  | serialize
  | dbload
  | archive
deriving DecidableEq

/-- The whole external world of one run: the directory listing, the tabular
readers, the outcome of loading `config.json`, the database step outcomes, and
whether archiving the processed CSVs succeeds. -/
structure Env extends FileEnv where
  listing : List Str
  configRes : Except Str Unit
  dbSteps : Str → TableStep
  archiveOk : Bool

/-- Embeds `main` from `main.py` (lines 381-413) as the list of stages that
execute and the process exit status: any raised error is caught by the
top-level `except`, which exits with status 1; a run that completes exits 0.
Discovery returning nothing and an empty loaded-table dict raise
`ValueError` before the next stage runs. -/
def main (env : Env) : List Stage × Nat :=
  let files := find_data_files env.listing
  if files = [] then ([Stage.discover], 1)
  else
    let d := create_df_dict files env.toFileEnv
    if d = [] then ([Stage.discover, Stage.stagedir, Stage.load], 1)
    else
      match clean_file_names (d.map (fun p => p.1)) d with
      | .error _ => ([Stage.discover, Stage.stagedir, Stage.load, Stage.normalize], 1)
      | .ok (datasets, d2) =>
        let schemas := process_dataframes d2
        let _written := save_df_to_csv datasets d2
        match env.configRes with
        | .error _ =>
          ([Stage.discover, Stage.stagedir, Stage.load, Stage.normalize, Stage.schema,
            Stage.serialize], 1)
        | .ok _ =>
          match import_to_postgres schemas env.dbSteps with
          | (_, .error _) =>
            ([Stage.discover, Stage.stagedir, Stage.load, Stage.normalize, Stage.schema,
              Stage.serialize, Stage.dbload], 1)
          | (_, .ok _) =>
            if env.archiveOk then
              ([Stage.discover, Stage.stagedir, Stage.load, Stage.normalize, Stage.schema,
                Stage.serialize, Stage.dbload, Stage.archive], 0)
            else
              ([Stage.discover, Stage.stagedir, Stage.load, Stage.normalize, Stage.schema,
                Stage.serialize, Stage.dbload, Stage.archive], 1)

/-- Whether the first character is `c` (`false` on the empty string). -/
def headIs (c : Char) : Str → Bool
  | [] => false
  | a :: _ => a == c

/-- Whether the last character is `c` (`false` on the empty string). -/
def lastIs (c : Char) : Str → Bool
  | [] => false
  | [a] => a == c
  | _ :: rest => lastIs c rest

/-- Whether the first character is an ASCII digit. -/
def headDigit : Str → Bool
  | [] => false
  | a :: _ => isDigitC a

/-- Whether the string contains two consecutive underscores. -/
def hasDoubleUnderscore : Str → Bool
  | [] => false
  | [_] => false
  | a :: b :: rest => (a == '_' && b == '_') || hasDoubleUnderscore (b :: rest)

/-- Environment with an empty directory listing: discovery finds nothing. -/
def envNoFiles : Env where
  readCsv := fun _ => Except.error []
  readExcel := fun _ => Except.error []
  readJson := fun _ => Except.error []
  listing := []
  configRes := Except.ok ()
  dbSteps := fun _ => { createRes := Except.ok (), copyRes := Except.ok () }
  archiveOk := true

/-- Environment with one discoverable CSV whose read fails: the loaded-table
dict comes out empty. -/
def envBadCsv : Env where
  readCsv := fun _ => Except.error "parse error".data
  readExcel := fun _ => Except.error []
  readJson := fun _ => Except.error []
  listing := ["bad.csv".data]
  configRes := Except.ok ()
  dbSteps := fun _ => { createRes := Except.ok (), copyRes := Except.ok () }
  archiveOk := true

/-- File environment whose CSV reader always fails; used to exhibit a per-file
error in `create_df_dict`. -/
def fenvFailingCsv : FileEnv where
  readCsv := fun _ => Except.error "unreadable".data
  readExcel := fun _ => Except.error []
  readJson := fun _ => Except.error []

/-- Claim C3 (code bug evidence): `Series.replace` leaves a dtype absent from
`DTYPE_MAPPING` unchanged, so a `complex128` column yields the schema
`"x complex128"`, not the `VARCHAR` fallback — even though the mapping's own
`"default": "VARCHAR"` entry documents that fallback intent. -/
theorem dtype_fallback_never_applied :
    seriesReplace DTYPE_MAPPING "complex128".data = "complex128".data ∧
    process_dataframes [("t".data, ⟨[("x".data, "complex128".data)]⟩)] =
      [("t".data, "x complex128".data)] ∧
    List.lookup "default".data DTYPE_MAPPING = some "VARCHAR".data := by
  refine ⟨by decide, by decide, by decide⟩

/-- Claim C9: the non-empty input `"###"` normalizes to the empty string —
every character becomes `_`, the run collapses, and the strip removes it; the
`col_` step only fires on non-empty results. -/
theorem clean_text_empty_on_nonempty_input :
    "###".data.isEmpty = false ∧ clean_text "###".data = [] := by
  refine ⟨rfl, by decide⟩

/-- Claim C10: `save_df_to_csv` never reads its first parameter — the loop
target shadows it — so the writes are determined by `dataframe_dict` alone. -/
theorem save_df_to_csv_ignores_clean_file_name (a b : List Str)
    (dataframe_dict : List (Str × Table)) :
    save_df_to_csv a dataframe_dict = save_df_to_csv b dataframe_dict := rfl

/-- Claim C4 (counterexample): the claim's case-insensitive extension rule
includes `"A.CSV"`, but `find_data_files` uses case-sensitive `endswith` and
excludes it. -/
theorem find_data_files_case_counterexample :
    claimIncludesFile "A.CSV".data = true ∧ find_data_files ["A.CSV".data] = [] := by
  refine ⟨by decide, by decide⟩

/-- Claim C4 (amended): discovery excludes exactly the two reserved config
names case-insensitively and includes exactly the entries that end,
case-sensitively, with one of the data extensions; on the claim's example
listing it returns exactly the three data files. -/
theorem find_data_files_characterization :
    (∀ files : List Str, find_data_files files =
      files.filter (fun f => !isReservedConfig f && hasDataExtension f)) ∧
    find_data_files
        ["a.csv".data, "b.xlsx".data, "c.json".data, "config.json".data, "d.py".data] =
      ["a.csv".data, "b.xlsx".data, "c.json".data] := by
  constructor
  · intro files
    induction files with
    | nil => rfl
    | cons f rest ih =>
      by_cases h1 : isReservedConfig f = true
      · simp [find_data_files, h1, List.filter_cons, ih]
      · have h1' : isReservedConfig f = false := by
          exact Bool.not_eq_true _ ▸ eq_false_of_ne_true h1
        by_cases h2 : hasDataExtension f = true
        · simp [find_data_files, h1', h2, List.filter_cons, ih]
        · have h2' : hasDataExtension f = false := eq_false_of_ne_true h2
          simp [find_data_files, h1', h2', List.filter_cons, ih]
  · decide

/-- The loop of `import_to_postgres` issues no commit and no rollback itself,
and reports exactly the first failure among its steps. -/
theorem runLoop_spec (env : Str → TableStep) (tables : List (Str × Str)) :
    (runLoop env tables).1.count DbOp.commit = 0 ∧
    (runLoop env tables).1.count DbOp.rollback = 0 ∧
    (runLoop env tables).2 = firstFailure env tables := by
  induction tables with
  | nil => exact ⟨rfl, rfl, rfl⟩
  | cons t rest ih =>
    obtain ⟨n, s⟩ := t
    simp only [runLoop, firstFailure]
    cases h1 : (env n).createRes with
    | error e => simp
    | ok u =>
      cases h2 : (env n).copyRes with
      | error e => simp [List.count_cons]
      | ok u2 => simp [List.count_cons, ih.1, ih.2.1, ih.2.2]

/-- The loop fails nowhere exactly when every create and copy step succeeds. -/
theorem firstFailure_none_iff (env : Str → TableStep) (tables : List (Str × Str)) :
    firstFailure env tables = none ↔ allStepsOk env tables = true := by
  induction tables with
  | nil => simp [firstFailure, allStepsOk]
  | cons t rest ih =>
    obtain ⟨n, s⟩ := t
    simp only [firstFailure, allStepsOk, List.all_cons]
    cases h1 : (env n).createRes with
    | error e => simp [Except.isOk, Except.toBool]
    | ok u =>
      cases h2 : (env n).copyRes with
      | error e => simp [Except.isOk, Except.toBool]
      | ok u2 =>
        simpa [Except.isOk, Except.toBool, allStepsOk] using ih

/-- Claim C2: `import_to_postgres` is transactionally atomic — when every
per-table step succeeds it issues exactly one commit and no rollback and
returns normally; when any step fails it issues no commit, exactly one
rollback, and re-raises the first error. -/
theorem import_to_postgres_transactional (table_schema : List (Str × Str))
    (env : Str → TableStep) :
    (import_to_postgres table_schema env).1.count DbOp.commit =
      (if allStepsOk env table_schema then 1 else 0) ∧
    (import_to_postgres table_schema env).1.count DbOp.rollback =
      (if allStepsOk env table_schema then 0 else 1) ∧
    (import_to_postgres table_schema env).2 =
      (match firstFailure env table_schema with
       | none => Except.ok ()
       | some e => Except.error e) := by
  obtain ⟨h1, h2, h3⟩ := runLoop_spec env table_schema
  rcases hr : runLoop env table_schema with ⟨ops, o⟩
  rw [hr] at h1 h2 h3
  simp only at h1 h2 h3
  simp only [import_to_postgres, hr]
  cases o with
  | none =>
    have hok : allStepsOk env table_schema = true :=
      (firstFailure_none_iff env table_schema).mp h3.symm
    rw [← h3]
    simp [List.count_append, List.count_cons, h1, h2, hok]
  | some e =>
    have hbad : allStepsOk env table_schema = false := by
      cases hal : allStepsOk env table_schema
      · rfl
      · exact absurd ((firstFailure_none_iff env table_schema).mpr hal)
          (by rw [← h3]; simp)
    rw [← h3]
    simp [List.count_append, List.count_cons, h1, h2, hbad]

/-- One `create_df_dict` iteration either applies its successful dict update
and leaves the error counter alone, or leaves the dict alone and counts one
error. -/
theorem processFile_eq (env : FileEnv) (st : List (Str × Table) × Nat) (f : Str) :
    processFile env st f =
      if fileOk env f then (applyFileOk env st.1 f, st.2) else (st.1, st.2 + 1) := by
  obtain ⟨d, e⟩ := st
  by_cases hc : (splitExt f).2.map pyLower = ".csv".data
  · simp only [processFile, fileOk, applyFileOk, if_pos hc]
    cases h : env.readCsv f <;> simp [h, Except.isOk, Except.toBool]
  · by_cases hx : excelExtensions.contains ((splitExt f).2.map pyLower)
    · simp only [processFile, fileOk, applyFileOk, if_neg hc, if_pos hx]
      cases h : env.readExcel f with
      | error err => simp [Except.isOk, Except.toBool]
      | ok sheets =>
        simp only [Except.isOk, Except.toBool, if_true]
        rcases sheets with _ | ⟨⟨sn, t⟩, rest⟩
        · simp
        · rcases rest with _ | ⟨q, rest2⟩ <;> simp
    · by_cases hj : (splitExt f).2.map pyLower = ".json".data
      · simp only [processFile, fileOk, applyFileOk, if_neg hc, if_neg hx, if_pos hj]
        cases h : env.readJson f <;> simp [h, Except.isOk, Except.toBool]
      · simp only [processFile, fileOk, applyFileOk, if_neg hc, if_neg hx, if_neg hj]
        simp

/-- The `create_df_dict` loop state over any file list: the dict is the fold
of the successful updates over the files that process cleanly, and the error
counter counts exactly the files that fail. -/
theorem create_df_dict_state_eq (env : FileEnv) (files : List Str)
    (d : List (Str × Table)) (e : Nat) :
    files.foldl (processFile env) (d, e) =
      ((files.filter (fileOk env)).foldl (fun acc f => applyFileOk env acc f) d,
       e + (files.filter (fun f => !fileOk env f)).length) := by
  induction files generalizing d e with
  | nil => simp
  | cons f rest ih =>
    rw [List.foldl_cons, processFile_eq]
    by_cases h : fileOk env f = true
    · rw [if_pos h]
      simp only [List.filter_cons, h, Bool.not_true, List.foldl_cons]
      rw [ih]
      simp
    · have h' : fileOk env f = false := eq_false_of_ne_true h
      rw [if_neg (by simp [h'])]
      rw [ih]
      have hfit : List.filter (fileOk env) (f :: rest) = List.filter (fileOk env) rest := by
        simp [List.filter_cons, h']
      have hfat : List.filter (fun g => !fileOk env g) (f :: rest) =
          f :: List.filter (fun g => !fileOk env g) rest := by
        simp [List.filter_cons, h']
      rw [hfit, hfat]
      simp only [Prod.mk.injEq, List.length_cons]
      exact ⟨trivial, by omega⟩

/-- Claim C6 (amended): `create_df_dict` returns only the table mapping — the
error counter is internal — and every per-file failure is caught, counted and
skipped, so the returned mapping is exactly what the successfully processed
files produce. -/
theorem create_df_dict_skips_failures (files : List Str) (env : FileEnv) :
    create_df_dict files env = create_df_dict (files.filter (fileOk env)) env ∧
    (create_df_dict_state files env).2 =
      (files.filter (fun f => !fileOk env f)).length := by
  have h := create_df_dict_state_eq env files [] 0
  have h2 := create_df_dict_state_eq env (files.filter (fileOk env)) [] 0
  constructor
  · unfold create_df_dict create_df_dict_state
    rw [h, h2]
    simp [List.filter_filter]
  · unfold create_df_dict_state
    rw [h]
    simp

/-- Claim C6 (counterexample): for a single unreadable CSV the loop counts one
error, but the value `create_df_dict` returns is the bare (empty) mapping —
no error count accompanies it. -/
theorem create_df_dict_drops_error_count :
    create_df_dict ["bad.csv".data] fenvFailingCsv = [] ∧
    (create_df_dict_state ["bad.csv".data] fenvFailingCsv).2 = 1 := by
  refine ⟨by decide, by decide⟩

/-- Claim C5: if discovery returns nothing the run exits with status 1 and the
staging, load and schema stages never execute; if the loaded-table mapping is
empty after the load stage the run exits with status 1 without reaching schema
derivation or the database load. -/
theorem main_guard_aborts (e1 e2 : Env)
    (h1 : find_data_files e1.listing = [])
    (h2 : find_data_files e2.listing ≠ [])
    (h3 : create_df_dict (find_data_files e2.listing) e2.toFileEnv = []) :
    main e1 = ([Stage.discover], 1) ∧
    (main e1).1.contains Stage.stagedir = false ∧
    (main e1).1.contains Stage.load = false ∧
    (main e1).1.contains Stage.schema = false ∧
    main e2 = ([Stage.discover, Stage.stagedir, Stage.load], 1) ∧
    (main e2).1.contains Stage.schema = false ∧
    (main e2).1.contains Stage.dbload = false := by
  have hm1 : main e1 = ([Stage.discover], 1) := by
    simp [main, h1]
  have hm2 : main e2 = ([Stage.discover, Stage.stagedir, Stage.load], 1) := by
    simp [main, h2, h3]
  refine ⟨hm1, ?_, ?_, ?_, hm2, ?_, ?_⟩ <;> first
    | (rw [hm1]; decide)
    | (rw [hm2]; decide)

/-- Witness for claim C5: concrete environments — an empty directory listing,
and a listing with one CSV whose read fails — hit both guards. -/
theorem main_guard_aborts_witness :
    main envNoFiles = ([Stage.discover], 1) ∧
    (main envNoFiles).1.contains Stage.stagedir = false ∧
    (main envNoFiles).1.contains Stage.load = false ∧
    (main envNoFiles).1.contains Stage.schema = false ∧
    main envBadCsv = ([Stage.discover, Stage.stagedir, Stage.load], 1) ∧
    (main envBadCsv).1.contains Stage.schema = false ∧
    (main envBadCsv).1.contains Stage.dbload = false :=
  main_guard_aborts envNoFiles envBadCsv (by decide) (by decide) (by decide)

/-- `str.lower` never produces an ASCII uppercase letter. -/
theorem isUpperAZ_pyLower (c : Char) : isUpperAZ (pyLower c) = false := by
  unfold pyLower
  split
  · rename_i h
    obtain ⟨h1, h2⟩ := h
    set n := c.toNat with hn
    interval_cases n <;> decide
  · split
    · decide
    · rename_i h _
      simp only [isUpperAZ, decide_eq_false_iff_not]
      omega

/-- Range view of the safe-character class. -/
theorem safe_ranges (c : Char) (h : isSafeChar c = true) :
    (97 ≤ c.toNat ∧ c.toNat ≤ 122) ∨ (48 ≤ c.toNat ∧ c.toNat ≤ 57) ∨ c.toNat = 95 := by
  have := h
  simp only [isSafeChar, isLowerAZ, isDigitC, Bool.or_eq_true, decide_eq_true_eq] at this
  tauto

/-- Safe characters are not the dot. -/
theorem safe_ne_dot (c : Char) (h : isSafeChar c = true) : c ≠ '.' := by
  rintro rfl
  revert h
  decide

/-- A word-class character that is not uppercase is safe. -/
theorem safe_of_word_not_upper (c : Char) (h1 : isWordChar c = true)
    (h2 : isUpperAZ c = false) : isSafeChar c = true := by
  simp only [isWordChar, h2, Bool.false_or, Bool.or_assoc] at h1
  simp only [isSafeChar, Bool.or_assoc]
  exact h1

/-- On non-uppercase characters the code's `[a-zA-Z0-9_]` class agrees with
the spec's `[a-z0-9_]` class. -/
theorem word_eq_safe_of_not_upper (c : Char) (h : isUpperAZ c = false) :
    isWordChar c = isSafeChar c := by
  simp [isWordChar, isSafeChar, h]

/-- Safe characters belong to the word class. -/
theorem word_of_safe (c : Char) (h : isSafeChar c = true) : isWordChar c = true := by
  simp only [isSafeChar, Bool.or_eq_true] at h
  simp only [isWordChar, Bool.or_eq_true]
  tauto

/-- An ASCII digit is not the underscore. -/
theorem digit_ne_underscore (c : Char) (h : isDigitC c = true) : (c == '_') = false := by
  rw [beq_eq_false_iff_ne]
  rintro rfl
  revert h
  decide

/-- The Turkish transliteration fixes every character below U+00C7, in
particular every safe character. -/
theorem TR_MAPPING_eq_self (c : Char) (h : c.toNat < 199) : TR_MAPPING c = c := by
  unfold TR_MAPPING
  repeat' rw [if_neg (by rintro rfl; revert h; decide)]

/-- `str.lower` fixes every safe character. -/
theorem pyLower_eq_self (c : Char) (h : isSafeChar c = true) : pyLower c = c := by
  have hr := safe_ranges c h
  unfold pyLower
  rw [if_neg (by omega), if_neg (by omega)]

/-- Unfolds `hasDoubleUnderscore` one cons cell at a time. -/
theorem hasDouble_cons_eq (a : Char) (l : Str) :
    hasDoubleUnderscore (a :: l) = ((a == '_') && headIs '_' l || hasDoubleUnderscore l) := by
  cases l <;> simp [hasDoubleUnderscore, headIs]

/-- Double-underscore freedom is inherited by the tail. -/
theorem hasDouble_tail (a : Char) (l : Str) (h : hasDoubleUnderscore (a :: l) = false) :
    hasDoubleUnderscore l = false := by
  rw [hasDouble_cons_eq] at h
  exact (Bool.or_eq_false_iff.mp h).2

/-- Dropping a prefix preserves double-underscore freedom. -/
theorem hasDouble_dropWhile (p : Char → Bool) (l : Str)
    (h : hasDoubleUnderscore l = false) :
    hasDoubleUnderscore (l.dropWhile p) = false := by
  induction l with
  | nil => rfl
  | cons a rest ih =>
    rw [List.dropWhile_cons]
    split
    · exact ih (hasDouble_tail a rest h)
    · exact h

/-- Appending one character checks the old last character against it. -/
theorem hasDouble_append_singleton (l : Str) (a : Char) :
    hasDoubleUnderscore (l ++ [a]) =
      (hasDoubleUnderscore l || (lastIs '_' l && (a == '_'))) := by
  induction l with
  | nil => simp [hasDoubleUnderscore, lastIs]
  | cons b rest ih =>
    rw [List.cons_append, hasDouble_cons_eq, hasDouble_cons_eq, ih]
    cases rest with
    | nil => simp [headIs, lastIs, hasDoubleUnderscore, Bool.and_comm]
    | cons d rest2 =>
      simp only [List.cons_append, headIs, lastIs]
      cases hbd : (b == '_') <;> cases hdd : (d == '_') <;> simp

/-- The last character after appending a singleton. -/
theorem lastIs_append_singleton (c : Char) (l : Str) (a : Char) :
    lastIs c (l ++ [a]) = (a == c) := by
  induction l with
  | nil => rfl
  | cons b rest ih =>
    cases rest with
    | nil => simp [lastIs]
    | cons d rest2 => simp only [List.cons_append, lastIs] at ih ⊢; exact ih

/-- The last character of the reversal is the first character. -/
theorem lastIs_reverse (c : Char) (l : Str) : lastIs c l.reverse = headIs c l := by
  cases l with
  | nil => rfl
  | cons a rest =>
    rw [List.reverse_cons, lastIs_append_singleton]
    rfl

/-- The first character of the reversal is the last character. -/
theorem headIs_reverse (c : Char) (l : Str) : headIs c l.reverse = lastIs c l := by
  rw [← lastIs_reverse c l.reverse, List.reverse_reverse]

/-- Reversal preserves the double-underscore test (adjacency is symmetric). -/
theorem hasDouble_reverse (l : Str) :
    hasDoubleUnderscore l.reverse = hasDoubleUnderscore l := by
  induction l with
  | nil => rfl
  | cons a rest ih =>
    rw [List.reverse_cons, hasDouble_append_singleton, ih, lastIs_reverse,
      hasDouble_cons_eq, Bool.or_comm, Bool.and_comm]

/-- Dropping a prefix preserves last-character freedom. -/
theorem lastIs_dropWhile (c : Char) (p : Char → Bool) (l : Str)
    (h : lastIs c l = false) : lastIs c (l.dropWhile p) = false := by
  induction l with
  | nil => rfl
  | cons a rest ih =>
    rw [List.dropWhile_cons]
    have htail : lastIs c rest = false := by
      cases rest with
      | nil => rfl
      | cons d rest2 => exact h
    split
    · exact ih htail
    · exact h

/-- After dropping the leading run of `c` the head is not `c`. -/
theorem headIs_dropWhile_self (c : Char) (l : Str) :
    headIs c (l.dropWhile (fun x => x == c)) = false := by
  induction l with
  | nil => rfl
  | cons a rest ih =>
    rw [List.dropWhile_cons]
    split
    · exact ih
    · rename_i h
      simpa [headIs] using h

/-- No leading run of `c` means dropping it is the identity. -/
theorem dropWhile_eq_self_of_headIs (c : Char) (l : Str) (h : headIs c l = false) :
    l.dropWhile (fun x => x == c) = l := by
  cases l with
  | nil => rfl
  | cons a rest =>
    rw [List.dropWhile_cons]
    simp only [headIs] at h
    simp [h]

/-- Characters of the collapsed string come from the input or are `_`. -/
theorem mem_collapseAux (l : Str) : ∀ (b : Bool) (c : Char),
    c ∈ collapseAux b l → c ∈ l ∨ c = '_' := by
  induction l with
  | nil => intro b c h; cases h
  | cons a rest ih =>
    intro b c h
    by_cases ha : a = '_'
    · subst ha
      simp only [collapseAux, if_pos rfl] at h
      cases b with
      | true =>
        rcases ih true c h with h2 | h2
        · exact Or.inl (List.mem_cons_of_mem _ h2)
        · exact Or.inr h2
      | false =>
        rcases List.mem_cons.mp h with h2 | h2
        · exact Or.inr h2
        · rcases ih true c h2 with h3 | h3
          · exact Or.inl (List.mem_cons_of_mem _ h3)
          · exact Or.inr h3
    · simp only [collapseAux, if_neg ha] at h
      rcases List.mem_cons.mp h with h2 | h2
      · exact Or.inl (h2 ▸ List.mem_cons_self _ _)
      · rcases ih false c h2 with h3 | h3
        · exact Or.inl (List.mem_cons_of_mem _ h3)
        · exact Or.inr h3

/-- After emitting an underscore the collapse never emits another one first. -/
theorem headIs_collapseAux_true (l : Str) :
    headIs '_' (collapseAux true l) = false := by
  induction l with
  | nil => rfl
  | cons a rest ih =>
    by_cases ha : a = '_'
    · subst ha
      simpa [collapseAux] using ih
    · simp only [collapseAux, if_neg ha, headIs]
      rw [beq_eq_false_iff_ne]
      exact ha

/-- The collapsed string has no double underscore. -/
theorem hasDouble_collapseAux (l : Str) : ∀ b : Bool,
    hasDoubleUnderscore (collapseAux b l) = false := by
  induction l with
  | nil => intro b; rfl
  | cons a rest ih =>
    intro b
    by_cases ha : a = '_'
    · subst ha
      cases b with
      | true => simpa [collapseAux] using ih true
      | false =>
        show hasDoubleUnderscore ('_' :: collapseAux true rest) = false
        rw [hasDouble_cons_eq, headIs_collapseAux_true, ih true]
        rfl
    · simp only [collapseAux, if_neg ha]
      rw [hasDouble_cons_eq, ih false]
      have : (a == '_') = false := beq_eq_false_iff_ne.mpr ha
      simp [this]

/-- A string without double underscores collapses to itself (provided it does
not begin with an underscore when the previous character was one). -/
theorem collapseAux_eq_self (l : Str) : ∀ b : Bool,
    hasDoubleUnderscore l = false → (b = true → headIs '_' l = false) →
    collapseAux b l = l := by
  induction l with
  | nil => intro b _ _; rfl
  | cons c rest ih =>
    intro b hd hb
    by_cases hc : c = '_'
    · subst hc
      cases b with
      | true => simpa [headIs] using hb rfl
      | false =>
        show '_' :: collapseAux true rest = '_' :: rest
        congr 1
        refine ih true (hasDouble_tail _ _ hd) ?_
        intro _
        rw [hasDouble_cons_eq] at hd
        have := (Bool.or_eq_false_iff.mp hd).1
        simpa using this
    · simp only [collapseAux, if_neg hc]
      congr 1
      exact ih false (hasDouble_tail _ _ hd) (by intro h; cases h)

/-- Membership is preserved from the stripped string back to the original. -/
theorem mem_stripUnderscores (l : Str) (c : Char) (h : c ∈ stripUnderscores l) :
    c ∈ l := by
  unfold stripUnderscores at h
  have h1 := List.mem_reverse.mp h
  have h2 := (List.dropWhile_sublist _).mem h1
  have h3 := List.mem_reverse.mp h2
  exact (List.dropWhile_sublist _).mem h3

/-- The stripped string does not start with an underscore. -/
theorem stripUnderscores_headIs (l : Str) :
    headIs '_' (stripUnderscores l) = false := by
  unfold stripUnderscores
  rw [headIs_reverse]
  apply lastIs_dropWhile
  rw [lastIs_reverse]
  exact headIs_dropWhile_self '_' l

/-- The stripped string does not end with an underscore. -/
theorem stripUnderscores_lastIs (l : Str) :
    lastIs '_' (stripUnderscores l) = false := by
  unfold stripUnderscores
  rw [lastIs_reverse]
  exact headIs_dropWhile_self '_' _

/-- Stripping preserves double-underscore freedom. -/
theorem stripUnderscores_noDouble (l : Str) (h : hasDoubleUnderscore l = false) :
    hasDoubleUnderscore (stripUnderscores l) = false := by
  unfold stripUnderscores
  rw [hasDouble_reverse]
  apply hasDouble_dropWhile
  rw [hasDouble_reverse]
  exact hasDouble_dropWhile _ _ h

/-- A string with no leading and no trailing underscore strips to itself. -/
theorem stripUnderscores_eq_self (l : Str) (hh : headIs '_' l = false)
    (hl : lastIs '_' l = false) : stripUnderscores l = l := by
  unfold stripUnderscores
  rw [dropWhile_eq_self_of_headIs _ _ hh]
  rw [dropWhile_eq_self_of_headIs _ _ (by rw [headIs_reverse]; exact hl)]
  exact List.reverse_reverse l

/-- Every character of step (d) applied after step (c) is safe: uppercase
letters cannot survive the lowering, and everything outside the word class
becomes an underscore. -/
theorem replaceSpecial_transliterate_safe (l : Str) :
    ∀ c ∈ replaceSpecial (transliterateLower l), isSafeChar c = true := by
  intro c hc
  unfold replaceSpecial transliterateLower at hc
  rcases List.mem_map.mp hc with ⟨d, hd, rfl⟩
  rcases List.mem_map.mp hd with ⟨a, _, rfl⟩
  by_cases hw : isWordChar (pyLower a) = true
  · rw [if_pos hw]
    exact safe_of_word_not_upper _ hw (isUpperAZ_pyLower a)
  · rw [if_neg hw]
    decide

/-- The normalizer's output satisfies all the identifier invariants. -/
theorem clean_text_wf (t : Str) :
    (clean_text t).all isSafeChar = true ∧
    hasDoubleUnderscore (clean_text t) = false ∧
    headIs '_' (clean_text t) = false ∧
    lastIs '_' (clean_text t) = false ∧
    headDigit (clean_text t) = false := by
  unfold clean_text
  generalize hl : replaceDots (stripFileExtension t) = l
  have hsafe : ∀ c ∈ replaceSpecial (transliterateLower l), isSafeChar c = true :=
    replaceSpecial_transliterate_safe l
  generalize hw : replaceSpecial (transliterateLower l) = w at hsafe
  have hssafe : ∀ c ∈ stripUnderscores (collapseUnderscores w), isSafeChar c = true := by
    intro c hc
    rcases mem_collapseAux w false c (mem_stripUnderscores _ _ hc) with h2 | h2
    · exact hsafe c h2
    · subst h2; decide
  have hsd : hasDoubleUnderscore (stripUnderscores (collapseUnderscores w)) = false :=
    stripUnderscores_noDouble _ (hasDouble_collapseAux w false)
  have hsh : headIs '_' (stripUnderscores (collapseUnderscores w)) = false :=
    stripUnderscores_headIs _
  have hsl : lastIs '_' (stripUnderscores (collapseUnderscores w)) = false :=
    stripUnderscores_lastIs _
  generalize hs : stripUnderscores (collapseUnderscores w) = s at hssafe hsd hsh hsl
  cases s with
  | nil => exact ⟨rfl, rfl, rfl, rfl, rfl⟩
  | cons c rest =>
    by_cases hdig : isDigitC c = true
    · simp only [prefixCol, if_pos hdig]
      refine ⟨?_, ?_, ?_, ?_, ?_⟩
      · rw [List.all_eq_true]
        intro x hx
        rcases List.mem_cons.mp hx with rfl | hx2
        · decide
        · rcases List.mem_cons.mp hx2 with rfl | hx3
          · decide
          · rcases List.mem_cons.mp hx3 with rfl | hx4
            · decide
            · rcases List.mem_cons.mp hx4 with rfl | hx5
              · decide
              · exact hssafe x hx5
      · rw [hasDouble_cons_eq, hasDouble_cons_eq, hasDouble_cons_eq, hasDouble_cons_eq,
          hasDouble_cons_eq]
        have hcu : (c == '_') = false := digit_ne_underscore c hdig
        rw [hasDouble_cons_eq] at hsd
        have := (Bool.or_eq_false_iff.mp hsd).2
        simp [headIs, hcu, this]
      · rfl
      · show lastIs '_' (c :: rest) = false
        exact hsl
      · rfl
    · simp only [prefixCol, if_neg hdig]
      refine ⟨?_, hsd, hsh, hsl, ?_⟩
      · rw [List.all_eq_true]
        exact hssafe
      · simp only [headDigit]
        exact eq_false_of_ne_true hdig

/-- Claim C7: for every input, the normalizer's result consists only of
characters in `[a-z0-9_]`, contains no dot and no two consecutive
underscores, has no leading or trailing underscore, and never starts with a
digit. -/
theorem clean_text_output_invariants (t : Str) :
    (clean_text t).all isSafeChar = true ∧
    (clean_text t).all (fun c => !(c == '.')) = true ∧
    hasDoubleUnderscore (clean_text t) = false ∧
    headIs '_' (clean_text t) = false ∧
    lastIs '_' (clean_text t) = false ∧
    headDigit (clean_text t) = false := by
  obtain ⟨h1, h2, h3, h4, h5⟩ := clean_text_wf t
  refine ⟨h1, ?_, h2, h3, h4, h5⟩
  rw [List.all_eq_true] at h1 ⊢
  intro c hc
  have hne : c ≠ '.' := safe_ne_dot c (h1 c hc)
  simp [beq_eq_false_iff_ne.mpr hne]

/-- A safe-character string never contains a dot. -/
theorem contains_dot_eq_false (l : Str) (h : ∀ c ∈ l, isSafeChar c = true) :
    l.contains '.' = false := by
  induction l with
  | nil => rfl
  | cons c rest ih =>
    have hcn : c ≠ '.' := safe_ne_dot c (h c (List.mem_cons_self _ _))
    have hb : (('.' : Char) == c) = false := beq_eq_false_iff_ne.mpr (Ne.symm hcn)
    show (('.' : Char) == c || rest.contains '.') = false
    rw [hb, ih (fun d hd2 => h d (List.mem_cons_of_mem _ hd2))]
    rfl

/-- A string already satisfying the identifier invariants is a fixed point of
the normalizer. -/
theorem clean_text_fixed (r : Str)
    (hs : r.all isSafeChar = true)
    (hd : hasDoubleUnderscore r = false)
    (hh : headIs '_' r = false)
    (hl : lastIs '_' r = false)
    (hg : headDigit r = false) :
    clean_text r = r := by
  have hmem : ∀ c ∈ r, isSafeChar c = true := List.all_eq_true.mp hs
  have h1 : stripFileExtension r = r := by
    unfold stripFileExtension
    rw [contains_dot_eq_false r hmem]
    rfl
  have h2 : replaceDots r = r := by
    unfold replaceDots
    have hcg : ∀ c ∈ r, (if c = '.' then '_' else c) = id c := by
      intro c hc
      have := safe_ne_dot c (hmem c hc)
      simp [this]
    rw [List.map_congr_left hcg, List.map_id]
  have h3 : transliterateLower r = r := by
    unfold transliterateLower
    have hm1 : ∀ c ∈ r, TR_MAPPING c = id c := by
      intro c hc
      have hr := safe_ranges c (hmem c hc)
      refine TR_MAPPING_eq_self c ?_
      rcases hr with ⟨a, b⟩ | ⟨a, b⟩ | a <;> omega
    rw [List.map_congr_left hm1, List.map_id]
    have hm2 : ∀ c ∈ r, pyLower c = id c := by
      intro c hc
      exact pyLower_eq_self c (hmem c hc)
    rw [List.map_congr_left hm2, List.map_id]
  have h4 : replaceSpecial r = r := by
    unfold replaceSpecial
    have hwg : ∀ c ∈ r, (if isWordChar c then c else '_') = id c := by
      intro c hc
      simp [word_of_safe c (hmem c hc)]
    rw [List.map_congr_left hwg, List.map_id]
  have h5 : collapseUnderscores r = r := by
    unfold collapseUnderscores
    exact collapseAux_eq_self r false hd (by intro h; cases h)
  have h6 : stripUnderscores r = r := stripUnderscores_eq_self r hh hl
  have h7 : prefixCol r = r := by
    cases r with
    | nil => rfl
    | cons c rest =>
      simp only [headDigit] at hg
      simp [prefixCol, hg]
  unfold clean_text
  rw [h1, h2, h3, h4, h5, h6, h7]

/-- Claim C8: on inputs made only of already-safe characters the normalizer is
idempotent — its output satisfies all the invariants it enforces, hence is a
fixed point. -/
theorem clean_text_idempotent_on_safe (x : Str) (h : x.all isSafeChar = true) :
    clean_text (clean_text x) = clean_text x := by
  obtain ⟨h1, h2, h3, h4, h5⟩ := clean_text_wf x
  exact clean_text_fixed _ h1 h2 h3 h4 h5

/-- Witness for claim C8 at the concrete safe input `"a__b"`. -/
theorem clean_text_idempotent_on_safe_witness :
    "a__b".data.all isSafeChar = true ∧
    clean_text (clean_text "a__b".data) = clean_text "a__b".data :=
  ⟨by decide, clean_text_idempotent_on_safe "a__b".data (by decide)⟩

/-- On lowered strings the code's substitution step and the spec's
substitution step coincide, because no uppercase letter survives `lower`. -/
theorem replaceSpecial_eq_spec (l : Str) :
    replaceSpecial (transliterateLower l) = replaceSpecialSpec (transliterateLower l) := by
  unfold replaceSpecial replaceSpecialSpec
  apply List.map_congr_left
  intro c hc
  unfold transliterateLower at hc
  rcases List.mem_map.mp hc with ⟨a, _, rfl⟩
  rw [word_eq_safe_of_not_upper _ (isUpperAZ_pyLower a)]

/-- Claim C1: `clean_text` computes exactly the spec's reference normalizer
(steps (a)-(g)), and the two quoted evaluations hold. -/
theorem clean_text_matches_spec_reference :
    (∀ t : Str, clean_text t = clean_text_spec t) ∧
    clean_text "İşçiğüŞöÇı".data = "iscigusoci".data ∧
    clean_text "test.file.csv".data = "test".data := by
  refine ⟨?_, by decide, by decide⟩
  intro t
  unfold clean_text clean_text_spec
  rw [replaceSpecial_eq_spec]

end PgDataHub
